import Mathlib

/-!
# BatterySlider

A shallow embedding of `src/components/BatterySlider.jsx`: the pointer-to-percentage
mapping (`updateChargeFromPosition`), the press / move / release handlers, and the two
derived display strings (`timeLeft`, `chargingMessage`).

Modelling conventions.

* Pointer coordinates and rectangle fields are JavaScript numbers that may be fractional;
  they are embedded as rationals `ℚ` (no NaN / infinities). A double is a rational, and
  the three arithmetic operations of `updateChargeFromPosition` (`-`, `/`, `*`) are
  embedded as the exact operation followed by `roundDouble`, the rounding to the nearest
  IEEE-754 binary64 value (53 significant bits, ties to even). So a pointer at `29` on a
  track of width `200` stores `14` (the double `14.499999999999998`), not `15`.
  An input is the exact rational value of the double the component receives (a decimal
  such as `0.1` that is not a double stands for its nearest double, `roundDouble 0.1`).
  `roundDouble` leaves the exponent range unbounded. On finite double inputs this does
  not change the stored charge: a difference of two doubles below `2^-1022` is exact, an
  overflowing difference only matters through its comparison with the finite width, and
  a quotient below `2^-1022` gives charge `0` either way.
* `Charge` is embedded as `ℤ`: every value the component stores through `setCharge` is a
  `Math.round` result, and `initialCharge` is taken to be an integer number.
  For integer `remainingPercentage` the products `r * 1.2` and `r * 1.5` in `timeLeft` are
  embedded as exact rational products; on the integers that reach those branches the
  floor of the double product and of the exact product agree.
* The component keeps the drag flag twice (React state `isDragging` and `isDraggingRef`);
  both are part of `State`.
* `containerRef.current` is embedded as `Option Rect`: `none` is the empty reference,
  `some rect` is an element whose `getBoundingClientRect()` returns `rect`.
-/

namespace BatterySlider

/-! ## Data model -/

/-- The part of `DOMRect` the component reads: `rect.left` and `rect.width`. -/
structure Rect where
  left : ℚ
  width : ℚ
deriving DecidableEq

/-- Component state: `charge`, the React state `isDragging` and the ref `isDraggingRef`. -/
structure State where
  charge : ℤ
  isDragging : Bool
  isDraggingRef : Bool
deriving DecidableEq

/-- State of a freshly created component: `useState(initialCharge)` with the default
parameter `initialCharge = 72`, `useState(false)` and `useRef(false)`. -/
def initialState (initialCharge : Option ℤ) : State :=
  { charge := initialCharge.getD 72, isDragging := false, isDraggingRef := false }

/-! ## JavaScript primitives -/

/-- Rounding to the nearest integer, ties going to the even neighbour. -/
def roundHalfEven (q : ℚ) : ℤ :=
  if q - ⌊q⌋ < 1 / 2 then ⌊q⌋
  else if 1 / 2 < q - ⌊q⌋ then ⌊q⌋ + 1
  else if ⌊q⌋ % 2 = 0 then ⌊q⌋
  else ⌊q⌋ + 1

/-- The rounding applied by every JavaScript number operation: the exact result `q` is
replaced by the nearest binary64 value, ties to even. With `e = Int.log 2 |q|` (so
`2^e ≤ |q| < 2^(e+1)`), the doubles of that binade are the integer multiples of
`2^(e-52)`. -/
def roundDouble (q : ℚ) : ℚ :=
  roundHalfEven (q / 2 ^ (Int.log 2 |q| - 52)) * 2 ^ (Int.log 2 |q| - 52)

/-- JavaScript `Math.round`: the nearest integer, ties going toward `+∞`. -/
def mathRound (q : ℚ) : ℤ := ⌊q + 1 / 2⌋

/-! ## Derived display strings -/

/-- The helper `formatTime` inside `timeLeft`; `remainingPercentage` is the captured
variable of the enclosing closure. -/
def formatTime (remainingPercentage hrs mins : ℤ) : String :=
  if remainingPercentage ≤ 1 then "fully charged"
  else if hrs = 0 then toString mins ++ " min left"
  else if mins = 0 then toString hrs ++ " hr left"
  else toString hrs ++ " hr " ++ toString mins ++ " min left"

/-- The memoised `timeLeft` value as a function of `charge`. JavaScript `%` is the
truncating remainder `Int.tmod`. -/
def timeLeft (charge : ℤ) : String :=
  let remainingPercentage := 100 - charge
  if remainingPercentage ≤ 5 then
    formatTime remainingPercentage 0 remainingPercentage
  else if remainingPercentage ≤ 20 then
    formatTime remainingPercentage 0 ⌊(remainingPercentage : ℚ) * 1.2⌋
  else if remainingPercentage ≤ 50 then
    let minutes : ℤ := ⌊(remainingPercentage : ℚ) * 1.5⌋
    formatTime remainingPercentage ⌊(minutes : ℚ) / 60⌋ (minutes.tmod 60)
  else
    formatTime remainingPercentage
      ⌊(remainingPercentage : ℚ) / 20⌋
      ⌊((remainingPercentage.tmod 20 : ℤ) : ℚ) * 3⌋

/-- The memoised `chargingMessage` value as a function of `charge`. -/
def chargingMessage (charge : ℤ) : String :=
  if charge ≥ 99 then "fully charged"
  else if charge ≥ 80 then "almost charged"
  else if charge ≥ 30 then "charging..."
  else "low battery"

/-! ## Interaction controller -/

/-- The handler `updateChargeFromPosition`: a no-op on an empty container reference,
otherwise `setCharge(Math.round((x / width) * 100))` with
`x = Math.max(0, Math.min(clientX - rect.left, rect.width))` and
`width = rect.width || 1`; each of `-`, `/` and `*` rounds its exact result to a double. -/
def updateChargeFromPosition (s : State) (container : Option Rect) (clientX : ℚ) : State :=
  match container with
  | none => s
  | some rect =>
    let x := max 0 (min (roundDouble (clientX - rect.left)) rect.width)
    let width := if rect.width = 0 then 1 else rect.width
    let newPercentage := roundDouble (roundDouble (x / width) * 100)
    let roundedPercentage := mathRound newPercentage
    { s with charge := roundedPercentage }

/-- The handler `handleMouseDown`. -/
def handleMouseDown (s : State) (container : Option Rect) (clientX : ℚ) : State :=
  let s1 := updateChargeFromPosition s container clientX
  { s1 with isDraggingRef := true, isDragging := true }

/-- The handler `handleMouseMove`. -/
def handleMouseMove (s : State) (container : Option Rect) (clientX : ℚ) : State :=
  if !s.isDraggingRef then s
  else updateChargeFromPosition s container clientX

/-- The handler `handleTouchStart`; `touches` lists the `clientX` of each entry of
`e.touches`, so `e.touches[0]` is `touches.head?`. -/
def handleTouchStart (s : State) (container : Option Rect) (touches : List ℚ) : State :=
  match touches.head? with
  | some clientX =>
    let s1 := updateChargeFromPosition s container clientX
    { s1 with isDraggingRef := true, isDragging := true }
  | none => s

/-- The handler `handleTouchMove`. -/
def handleTouchMove (s : State) (container : Option Rect) (touches : List ℚ) : State :=
  if !s.isDraggingRef then s
  else
    match touches.head? with
    | some clientX => updateChargeFromPosition s container clientX
    | none => s

/-- The handler `handleDragEnd`, registered for both `mouseup` and `touchend`. -/
def handleDragEnd (s : State) : State :=
  { s with isDraggingRef := false, isDragging := false }

/-- DOM events the component listens to. -/
inductive Event where
  | mouseDown (clientX : ℚ)
  | mouseMove (clientX : ℚ)
  | touchStart (touches : List ℚ)
  | touchMove (touches : List ℚ)
  | mouseUp
  | touchEnd
deriving DecidableEq

/-- Whether the event is a pointer move (`mousemove` or `touchmove`). -/
def Event.isMove : Event → Bool
  | .mouseMove _ => true
  | .touchMove _ => true
  | _ => false

/-- Dispatch of one event; `container` is the value of `containerRef.current` (with its
current bounding rectangle) at the time the event is delivered. -/
def step (s : State) (ev : Option Rect × Event) : State :=
  match ev.2 with
  | .mouseDown clientX => handleMouseDown s ev.1 clientX
  | .mouseMove clientX => handleMouseMove s ev.1 clientX
  | .touchStart touches => handleTouchStart s ev.1 touches
  | .touchMove touches => handleTouchMove s ev.1 touches
  | .mouseUp => handleDragEnd s
  | .touchEnd => handleDragEnd s

/-- Events are applied in delivery order. -/
def run (s : State) (evs : List (Option Rect × Event)) : State :=
  evs.foldl step s

/-! ## Structured view of the time text

The source only builds strings. For statements about the hours and minutes that are
shown, the same control flow is repeated with a structured result; `TimeText.render`
produces the template strings of `formatTime`. -/

/-- The four shapes of string that `formatTime` can return. -/
inductive TimeText where
  | fullyCharged
  | minLeft (mins : ℤ)
  | hrLeft (hrs : ℤ)
  | hrMinLeft (hrs mins : ℤ)
deriving DecidableEq

/-- The template strings of `formatTime`. -/
def TimeText.render : TimeText → String
  | .fullyCharged => "fully charged"
  | .minLeft mins => toString mins ++ " min left"
  | .hrLeft hrs => toString hrs ++ " hr left"
  | .hrMinLeft hrs mins => toString hrs ++ " hr " ++ toString mins ++ " min left"

/-- Total number of minutes a time text shows (`0` for "fully charged"). -/
def TimeText.totalMinutes : TimeText → ℤ
  | .fullyCharged => 0
  | .minLeft mins => mins
  | .hrLeft hrs => 60 * hrs
  | .hrMinLeft hrs mins => 60 * hrs + mins

/-- The minute component a time text shows (`0` when no minutes are shown). -/
def TimeText.minuteComponent : TimeText → ℤ
  | .fullyCharged => 0
  | .minLeft mins => mins
  | .hrLeft _ => 0
  | .hrMinLeft _ mins => mins

/-- The branch structure of `formatTime`, before rendering. -/
def formatTimeText (remainingPercentage hrs mins : ℤ) : TimeText :=
  if remainingPercentage ≤ 1 then .fullyCharged
  else if hrs = 0 then .minLeft mins
  else if mins = 0 then .hrLeft hrs
  else .hrMinLeft hrs mins

/-- The branch structure of `timeLeft`, before rendering. -/
def timeLeftText (charge : ℤ) : TimeText :=
  let remainingPercentage := 100 - charge
  if remainingPercentage ≤ 5 then
    formatTimeText remainingPercentage 0 remainingPercentage
  else if remainingPercentage ≤ 20 then
    formatTimeText remainingPercentage 0 ⌊(remainingPercentage : ℚ) * 1.2⌋
  else if remainingPercentage ≤ 50 then
    let minutes : ℤ := ⌊(remainingPercentage : ℚ) * 1.5⌋
    formatTimeText remainingPercentage ⌊(minutes : ℚ) / 60⌋ (minutes.tmod 60)
  else
    formatTimeText remainingPercentage
      ⌊(remainingPercentage : ℚ) / 20⌋
      ⌊((remainingPercentage.tmod 20 : ℤ) : ℚ) * 3⌋

/-! ## The specification's wording of the derived strings -/

/-- The formatting rule as the specification words it: minutes only when hours is `0`,
hours only when minutes is `0`, otherwise both. -/
def specFormat (hours minutes : ℤ) : String :=
  if hours = 0 then toString minutes ++ " min left"
  else if minutes = 0 then toString hours ++ " hr left"
  else toString hours ++ " hr " ++ toString minutes ++ " min left"

/-- The time-remaining string as the specification words it, piecewise over
`remaining = 100 - charge`, with mathematical floor and `mod`. -/
def timeRemainingSpec (charge : ℤ) : String :=
  let remaining := 100 - charge
  if remaining ≤ 1 then "fully charged"
  else if remaining ≤ 5 then specFormat 0 remaining
  else if remaining ≤ 20 then specFormat 0 ⌊(remaining : ℚ) * 1.2⌋
  else if remaining ≤ 50 then
    let m : ℤ := ⌊(remaining : ℚ) * 1.5⌋
    specFormat ⌊(m : ℚ) / 60⌋ (m % 60)
  else specFormat ⌊(remaining : ℚ) / 20⌋ ⌊((remaining % 20 : ℤ) : ℚ) * 3⌋

/-- The status message as the specification words it. -/
def statusMessageSpec (charge : ℤ) : String :=
  if 99 ≤ charge then "fully charged"
  else if 80 ≤ charge then "almost charged"
  else if 30 ≤ charge then "charging..."
  else "low battery"

/-- The position mapping as the specification words it:
`round(clamp(coordinate - rectLeft, 0, rectWidth) / max(rectWidth, 1) * 100)`. -/
def mappedChargeSpec (rect : Rect) (coordinate : ℚ) : ℤ :=
  let clampedX := max 0 (min (coordinate - rect.left) rect.width)
  mathRound (clampedX / max rect.width 1 * 100)

/-- The specification's position mapping with its `-`, `/` and `*` read as JavaScript
number operations, each rounding to a double. -/
def mappedChargeSpecDouble (rect : Rect) (coordinate : ℚ) : ℤ :=
  let clampedX := max 0 (min (roundDouble (coordinate - rect.left)) rect.width)
  mathRound (roundDouble (roundDouble (clampedX / max rect.width 1) * 100))

/-- The percentage of the code's formula in exact arithmetic, before `Math.round`:
`clamp(coordinate - rectLeft, 0, rectWidth) / (rectWidth || 1) * 100`. -/
def exactPercentage (rect : Rect) (coordinate : ℚ) : ℚ :=
  max 0 (min (coordinate - rect.left) rect.width) /
    (if rect.width = 0 then 1 else rect.width) * 100

/-! ## Arithmetic helpers -/

theorem floor_mul_1_2 (r : ℤ) : ⌊(r : ℚ) * 1.2⌋ = r * 6 / 5 := by
  have h : (r : ℚ) * 1.2 = ((r * 6 : ℤ) : ℚ) / ((5 : ℕ) : ℚ) := by
    push_cast; norm_num; ring
  rw [h, Rat.floor_intCast_div_natCast]; rfl

theorem floor_mul_1_5 (r : ℤ) : ⌊(r : ℚ) * 1.5⌋ = r * 3 / 2 := by
  have h : (r : ℚ) * 1.5 = ((r * 3 : ℤ) : ℚ) / ((2 : ℕ) : ℚ) := by
    push_cast; norm_num; ring
  rw [h, Rat.floor_intCast_div_natCast]; rfl

theorem floor_div_60 (m : ℤ) : ⌊(m : ℚ) / 60⌋ = m / 60 := by
  have h : (m : ℚ) / 60 = (m : ℚ) / ((60 : ℕ) : ℚ) := by norm_num
  rw [h, Rat.floor_intCast_div_natCast]; rfl

theorem floor_div_20 (m : ℤ) : ⌊(m : ℚ) / 20⌋ = m / 20 := by
  have h : (m : ℚ) / 20 = (m : ℚ) / ((20 : ℕ) : ℚ) := by norm_num
  rw [h, Rat.floor_intCast_div_natCast]; rfl

theorem floor_mul_3 (k : ℤ) : ⌊(k : ℚ) * 3⌋ = k * 3 := by
  have h : (k : ℚ) * 3 = ((k * 3 : ℤ) : ℚ) := by push_cast; ring
  rw [h, Int.floor_intCast]

/-! ## String helpers -/

theorem append_ne_fully (s t : String) (ht : t.data.getLast? = some 't') :
    s ++ t ≠ "fully charged" := by
  intro h
  have h1 := congrArg (fun u : String => u.data.getLast?) h
  simp only [String.data_append] at h1
  have ht0 : t.data ≠ [] := by
    intro h0; rw [h0] at ht; simp at ht
  rw [List.getLast?_append_of_ne_nil _ ht0, ht] at h1
  revert h1
  decide

theorem formatTime_eq_fully (r h m : ℤ) : formatTime r h m = "fully charged" ↔ r ≤ 1 := by
  unfold formatTime
  constructor
  · intro hf
    by_contra hr
    rw [if_neg hr] at hf
    split_ifs at hf
    · exact append_ne_fully _ _ (by decide) hf
    · exact append_ne_fully _ _ (by decide) hf
    · exact append_ne_fully _ _ (by decide) hf
  · intro hr
    rw [if_pos hr]

theorem formatTime_eq_render (r h m : ℤ) :
    formatTime r h m = (formatTimeText r h m).render := by
  unfold formatTime formatTimeText
  split_ifs <;> rfl

theorem timeLeft_eq_render (c : ℤ) : timeLeft c = (timeLeftText c).render := by
  unfold timeLeft timeLeftText
  simp only [formatTime_eq_render]
  split_ifs <;> rfl

/-- Integer normal form of `timeLeftText`. -/
theorem timeLeftText_eq (c : ℤ) :
    timeLeftText c =
      if 100 - c ≤ 5 then formatTimeText (100 - c) 0 (100 - c)
      else if 100 - c ≤ 20 then formatTimeText (100 - c) 0 ((100 - c) * 6 / 5)
      else if 100 - c ≤ 50 then
        formatTimeText (100 - c) ((100 - c) * 3 / 2 / 60) (((100 - c) * 3 / 2) % 60)
      else formatTimeText (100 - c) ((100 - c) / 20) ((100 - c) % 20 * 3) := by
  unfold timeLeftText
  simp only [floor_mul_1_2, floor_mul_1_5, floor_div_60, floor_div_20, floor_mul_3]
  split_ifs with h1 h2 h3
  · rfl
  · rfl
  · rw [Int.tmod_eq_emod (by omega) (by omega)]
  · rw [Int.tmod_eq_emod (by omega) (by omega)]

/-- Closed form of the total minutes shown, for every integer charge. -/
theorem totalMinutes_timeLeftText (c : ℤ) :
    (timeLeftText c).totalMinutes =
      if 100 - c ≤ 1 then 0
      else if 100 - c ≤ 5 then 100 - c
      else if 100 - c ≤ 20 then (100 - c) * 6 / 5
      else if 100 - c ≤ 50 then (100 - c) * 3 / 2
      else 3 * (100 - c) := by
  rw [timeLeftText_eq]
  unfold formatTimeText
  split_ifs <;> simp only [TimeText.totalMinutes] <;> omega

theorem minuteComponent_timeLeftText (c : ℤ) :
    (timeLeftText c).minuteComponent < 60 := by
  rw [timeLeftText_eq]
  unfold formatTimeText
  split_ifs <;> simp only [TimeText.minuteComponent] <;> omega


/-! ## Rounding helpers -/

theorem roundHalfEven_intCast (n : ℤ) : roundHalfEven (n : ℚ) = n := by
  unfold roundHalfEven
  simp

theorem floor_le_roundHalfEven (q : ℚ) : ⌊q⌋ ≤ roundHalfEven q := by
  unfold roundHalfEven
  split_ifs <;> omega

theorem roundHalfEven_le_floor_add_one (q : ℚ) : roundHalfEven q ≤ ⌊q⌋ + 1 := by
  unfold roundHalfEven
  split_ifs <;> omega

theorem roundHalfEven_mono {a b : ℚ} (h : a ≤ b) : roundHalfEven a ≤ roundHalfEven b := by
  rcases (Int.floor_mono h).lt_or_eq with hlt | heq
  · calc roundHalfEven a ≤ ⌊a⌋ + 1 := roundHalfEven_le_floor_add_one a
      _ ≤ ⌊b⌋ := hlt
      _ ≤ roundHalfEven b := floor_le_roundHalfEven b
  · unfold roundHalfEven
    rw [← heq]
    split_ifs <;> first | omega | (exfalso; linarith)

theorem roundHalfEven_sub_le (q : ℚ) : (roundHalfEven q : ℚ) - q ≤ 1 / 2 := by
  have h1 := Int.floor_le q
  unfold roundHalfEven
  split_ifs with c1 c2 c3
  · linarith
  · push_cast; linarith [Int.lt_floor_add_one q]
  · linarith
  · push_cast; linarith

theorem sub_roundHalfEven_le (q : ℚ) : q - (roundHalfEven q : ℚ) ≤ 1 / 2 := by
  have h1 := Int.lt_floor_add_one q
  unfold roundHalfEven
  split_ifs with c1 c2 c3
  · linarith
  · push_cast; linarith
  · linarith
  · push_cast; linarith

theorem roundHalfEven_eq_of_lt (q : ℚ) (m : ℤ) (h1 : (m : ℚ) - 1 / 2 < q)
    (h2 : q < (m : ℚ) + 1 / 2) : roundHalfEven q = m := by
  have ha := roundHalfEven_sub_le q
  have hb := sub_roundHalfEven_le q
  have h3 : (roundHalfEven q : ℚ) < (m : ℚ) + 1 := by linarith
  have h4 : (m : ℚ) - 1 < (roundHalfEven q : ℚ) := by linarith
  have h5 : roundHalfEven q < m + 1 := by exact_mod_cast h3
  have h6 : m - 1 < roundHalfEven q := by exact_mod_cast h4
  omega


theorem log_abs_eq (q : ℚ) (e : ℤ) (h1 : (2 : ℚ) ^ e ≤ |q|) (h2 : |q| < (2 : ℚ) ^ (e + 1)) :
    Int.log 2 |q| = e := by
  have hpos : 0 < |q| := lt_of_lt_of_le (zpow_pos (by norm_num) e) h1
  have ha : e ≤ Int.log 2 |q| :=
    (Int.zpow_le_iff_le_log (by norm_num) hpos).mp (by exact_mod_cast h1)
  have hb : Int.log 2 |q| < e + 1 :=
    (Int.lt_zpow_iff_log_lt (by norm_num) hpos).mp (by exact_mod_cast h2)
  omega

/-- Evaluation of `roundDouble` once the binade of `q` is known. -/
theorem roundDouble_eq_of (q : ℚ) (e m : ℤ) (h1 : (2 : ℚ) ^ e ≤ |q|)
    (h2 : |q| < (2 : ℚ) ^ (e + 1)) (hm : roundHalfEven (q / 2 ^ (e - 52)) = m) :
    roundDouble q = m * 2 ^ (e - 52) := by
  unfold roundDouble
  rw [log_abs_eq q e h1 h2, hm]

theorem roundDouble_zero : roundDouble 0 = 0 := by
  unfold roundDouble
  simp [roundHalfEven]

theorem roundDouble_nonneg {q : ℚ} (h : 0 ≤ q) : 0 ≤ roundDouble q := by
  unfold roundDouble
  have hp : (0 : ℚ) < 2 ^ (Int.log 2 |q| - 52) := zpow_pos (by norm_num) _
  have h0 : roundHalfEven ((0 : ℤ) : ℚ) ≤ roundHalfEven (q / 2 ^ (Int.log 2 |q| - 52)) :=
    roundHalfEven_mono (by push_cast; exact div_nonneg h hp.le)
  rw [roundHalfEven_intCast] at h0
  exact mul_nonneg (by exact_mod_cast h0) hp.le

theorem roundDouble_nonpos {q : ℚ} (h : q ≤ 0) : roundDouble q ≤ 0 := by
  unfold roundDouble
  have hp : (0 : ℚ) < 2 ^ (Int.log 2 |q| - 52) := zpow_pos (by norm_num) _
  have h0 : roundHalfEven (q / 2 ^ (Int.log 2 |q| - 52)) ≤ roundHalfEven ((0 : ℤ) : ℚ) :=
    roundHalfEven_mono (by push_cast; exact div_nonpos_of_nonpos_of_nonneg h hp.le)
  rw [roundHalfEven_intCast] at h0
  exact mul_nonpos_of_nonpos_of_nonneg (by exact_mod_cast h0) hp.le

/-- For positive `q` in the binade of exponent `e`, the scaled value lies in
`[2^52, 2^53)`. -/
theorem scaled_bounds {q : ℚ} (hq : 0 < q) :
    (2 : ℚ) ^ (52 : ℤ) ≤ q / 2 ^ (Int.log 2 q - 52) ∧
      q / 2 ^ (Int.log 2 q - 52) < (2 : ℚ) ^ (53 : ℤ) := by
  have hp : (0 : ℚ) < 2 ^ (Int.log 2 q - 52) := zpow_pos (by norm_num) _
  have h1 : (2 : ℚ) ^ (Int.log 2 q) ≤ q := by
    have := Int.zpow_log_le_self (b := 2) (by norm_num) hq
    exact_mod_cast this
  have h2 : q < (2 : ℚ) ^ (Int.log 2 q + 1) := by
    have := Int.lt_zpow_succ_log_self (b := 2) (by norm_num) q
    exact_mod_cast this
  have e1 : (2 : ℚ) ^ (Int.log 2 q) = 2 ^ (52 : ℤ) * 2 ^ (Int.log 2 q - 52) := by
    rw [← zpow_add₀ (by norm_num)]; congr 1; ring
  have e2 : (2 : ℚ) ^ (Int.log 2 q + 1) = 2 ^ (53 : ℤ) * 2 ^ (Int.log 2 q - 52) := by
    rw [← zpow_add₀ (by norm_num)]; congr 1; ring
  constructor
  · rw [le_div_iff₀ hp, ← e1]; exact h1
  · rw [div_lt_iff₀ hp, ← e2]; exact h2

/-- A positive number and its rounding lie in the same closed binade. -/
theorem roundDouble_binade {q : ℚ} (hq : 0 < q) :
    (2 : ℚ) ^ (Int.log 2 q) ≤ roundDouble q ∧ roundDouble q ≤ (2 : ℚ) ^ (Int.log 2 q + 1) := by
  have hp : (0 : ℚ) < 2 ^ (Int.log 2 q - 52) := zpow_pos (by norm_num) _
  have hs := scaled_bounds hq
  have e1 : (2 : ℚ) ^ (Int.log 2 q) = 2 ^ (52 : ℤ) * 2 ^ (Int.log 2 q - 52) := by
    rw [← zpow_add₀ (by norm_num)]; congr 1; ring
  have e2 : (2 : ℚ) ^ (Int.log 2 q + 1) = 2 ^ (53 : ℤ) * 2 ^ (Int.log 2 q - 52) := by
    rw [← zpow_add₀ (by norm_num)]; congr 1; ring
  have c52 : ((2 : ℚ) ^ (52 : ℤ)) = (((2 : ℤ) ^ 52 : ℤ) : ℚ) := by norm_num
  have c53 : ((2 : ℚ) ^ (53 : ℤ)) = (((2 : ℤ) ^ 53 : ℤ) : ℚ) := by norm_num
  have l1 : (2 : ℤ) ^ 52 ≤ roundHalfEven (q / 2 ^ (Int.log 2 q - 52)) := by
    have := roundHalfEven_mono (c52 ▸ hs.1)
    rwa [roundHalfEven_intCast] at this
  have l2 : roundHalfEven (q / 2 ^ (Int.log 2 q - 52)) ≤ (2 : ℤ) ^ 53 := by
    have := roundHalfEven_mono (c53 ▸ hs.2.le)
    rwa [roundHalfEven_intCast] at this
  unfold roundDouble
  rw [abs_of_pos hq, e1, e2, c52, c53]
  constructor
  · exact mul_le_mul_of_nonneg_right (by exact_mod_cast l1) hp.le
  · exact mul_le_mul_of_nonneg_right (by exact_mod_cast l2) hp.le

theorem roundDouble_mono_pos {a b : ℚ} (ha : 0 < a) (h : a ≤ b) :
    roundDouble a ≤ roundDouble b := by
  have hb : 0 < b := lt_of_lt_of_le ha h
  rcases (Int.log_mono_right (b := 2) ha h).lt_or_eq with hlt | heq
  · calc roundDouble a ≤ (2 : ℚ) ^ (Int.log 2 a + 1) := (roundDouble_binade ha).2
      _ ≤ (2 : ℚ) ^ (Int.log 2 b) := zpow_le_zpow_right₀ (by norm_num) hlt
      _ ≤ roundDouble b := (roundDouble_binade hb).1
  · unfold roundDouble
    rw [abs_of_pos ha, abs_of_pos hb, ← heq]
    have hp : (0 : ℚ) < 2 ^ (Int.log 2 a - 52) := zpow_pos (by norm_num) _
    have hm : roundHalfEven (a / 2 ^ (Int.log 2 a - 52)) ≤
        roundHalfEven (b / 2 ^ (Int.log 2 a - 52)) :=
      roundHalfEven_mono (div_le_div_of_nonneg_right h hp.le)
    exact mul_le_mul_of_nonneg_right (by exact_mod_cast hm) hp.le

/-- Rounding to a double is monotone on the non-negative numbers. -/
theorem roundDouble_mono {a b : ℚ} (ha : 0 ≤ a) (h : a ≤ b) :
    roundDouble a ≤ roundDouble b := by
  rcases ha.lt_or_eq with hpos | hz
  · exact roundDouble_mono_pos hpos h
  · rw [← hz, roundDouble_zero]
    exact roundDouble_nonneg (hz ▸ h)

/-- The rounding error is at most half a unit in the last place, hence at most
`2^(-53)` relative to the number. -/
theorem roundDouble_ge {q : ℚ} (hq : 0 < q) : q * (1 - 1 / 2 ^ 53) ≤ roundDouble q := by
  have hp : (0 : ℚ) < 2 ^ (Int.log 2 q - 52) := zpow_pos (by norm_num) _
  have hs := (scaled_bounds hq).1
  have herr := sub_roundHalfEven_le (q / 2 ^ (Int.log 2 q - 52))
  have h52 : ((2 : ℚ) ^ (52 : ℤ)) = 2 ^ 52 := by norm_num
  rw [h52] at hs
  unfold roundDouble
  rw [abs_of_pos hq]
  set P : ℚ := 2 ^ (Int.log 2 q - 52) with hP
  set y : ℚ := q / P with hy
  have hq' : q = y * P := by rw [hy]; field_simp
  rw [hq']
  have : y * (1 - 1 / 2 ^ 53) ≤ (roundHalfEven y : ℚ) := by
    have : y * (1 / 2 ^ 53) ≥ 1 / 2 := by
      have : (2 : ℚ) ^ 52 * (1 / 2 ^ 53) = 1 / 2 := by norm_num
      nlinarith
    linarith
  calc y * P * (1 - 1 / 2 ^ 53) = y * (1 - 1 / 2 ^ 53) * P := by ring
    _ ≤ (roundHalfEven y : ℚ) * P := mul_le_mul_of_nonneg_right this hp.le

theorem roundDouble_le {q : ℚ} (hq : 0 < q) : roundDouble q ≤ q * (1 + 1 / 2 ^ 53) := by
  have hp : (0 : ℚ) < 2 ^ (Int.log 2 q - 52) := zpow_pos (by norm_num) _
  have hs := (scaled_bounds hq).1
  have herr := roundHalfEven_sub_le (q / 2 ^ (Int.log 2 q - 52))
  have h52 : ((2 : ℚ) ^ (52 : ℤ)) = 2 ^ 52 := by norm_num
  rw [h52] at hs
  unfold roundDouble
  rw [abs_of_pos hq]
  set P : ℚ := 2 ^ (Int.log 2 q - 52) with hP
  set y : ℚ := q / P with hy
  have hq' : q = y * P := by rw [hy]; field_simp
  rw [hq']
  have : (roundHalfEven y : ℚ) ≤ y * (1 + 1 / 2 ^ 53) := by
    have : y * (1 / 2 ^ 53) ≥ 1 / 2 := by
      have : (2 : ℚ) ^ 52 * (1 / 2 ^ 53) = 1 / 2 := by norm_num
      nlinarith
    linarith
  calc (roundHalfEven y : ℚ) * P ≤ y * (1 + 1 / 2 ^ 53) * P :=
        mul_le_mul_of_nonneg_right this hp.le
    _ = y * P * (1 + 1 / 2 ^ 53) := by ring

theorem roundDouble_one : roundDouble 1 = 1 := by
  rw [roundDouble_eq_of 1 0 (2 ^ 52) (by norm_num) (by norm_num)
    (by
      have : (1 : ℚ) / 2 ^ ((0 : ℤ) - 52) = ((2 ^ 52 : ℤ) : ℚ) := by norm_num
      rw [this, roundHalfEven_intCast])]
  norm_num

theorem roundDouble_hundred : roundDouble 100 = 100 := by
  rw [roundDouble_eq_of 100 6 (100 * 2 ^ 46) (by norm_num) (by norm_num)
    (by
      have : (100 : ℚ) / 2 ^ ((6 : ℤ) - 52) = ((100 * 2 ^ 46 : ℤ) : ℚ) := by norm_num
      rw [this, roundHalfEven_intCast])]
  norm_num

theorem roundDouble_199_2 : roundDouble (199 / 2) = 199 / 2 := by
  rw [roundDouble_eq_of (199 / 2) 6 (199 * 2 ^ 45)
    (by rw [abs_of_pos] <;> norm_num) (by rw [abs_of_pos] <;> norm_num)
    (by
      have : (199 / 2 : ℚ) / 2 ^ ((6 : ℤ) - 52) = ((199 * 2 ^ 45 : ℤ) : ℚ) := by norm_num
      rw [this, roundHalfEven_intCast])]
  norm_num

theorem roundDouble_255_256 : roundDouble (255 / 256) = 255 / 256 := by
  rw [roundDouble_eq_of (255 / 256) (-1) (255 * 2 ^ 45)
    (by rw [abs_of_pos] <;> norm_num) (by rw [abs_of_pos] <;> norm_num)
    (by
      have : (255 / 256 : ℚ) / 2 ^ ((-1 : ℤ) - 52) = ((255 * 2 ^ 45 : ℤ) : ℚ) := by norm_num
      rw [this, roundHalfEven_intCast])]
  norm_num

/-- Evaluation of `roundDouble` at a positive number whose binade and nearest multiple
are given. -/
theorem roundDouble_eval (q : ℚ) (e m : ℤ) (v : ℚ) (h1 : (2 : ℚ) ^ e ≤ q)
    (h2 : q < (2 : ℚ) ^ (e + 1)) (h3 : (m : ℚ) - 1 / 2 < q / 2 ^ (e - 52))
    (h4 : q / 2 ^ (e - 52) < (m : ℚ) + 1 / 2) (hv : (m : ℚ) * 2 ^ (e - 52) = v) :
    roundDouble q = v := by
  have hq : 0 < q := lt_of_lt_of_le (zpow_pos (by norm_num) e) h1
  rw [← hv]
  exact roundDouble_eq_of q e m (by rwa [abs_of_pos hq]) (by rwa [abs_of_pos hq])
    (roundHalfEven_eq_of_lt _ m h3 h4)

/-! ## Position mapping helpers -/

theorem mathRound_eq_iff (q : ℚ) (n : ℤ) :
    mathRound q = n ↔ (n : ℚ) ≤ q + 1 / 2 ∧ q + 1 / 2 < n + 1 := by
  unfold mathRound
  exact Int.floor_eq_iff

theorem mathRound_zero : mathRound 0 = 0 := by
  rw [mathRound_eq_iff]; norm_num

theorem mathRound_mono {a b : ℚ} (h : a ≤ b) : mathRound a ≤ mathRound b := by
  unfold mathRound
  exact Int.floor_mono (by linarith)

theorem mathRound_range (q : ℚ) (h0 : 0 ≤ q) (h1 : q ≤ 100) :
    0 ≤ mathRound q ∧ mathRound q ≤ 100 := by
  unfold mathRound
  constructor
  · exact Int.floor_nonneg.mpr (by linarith)
  · have h : ⌊q + 1 / 2⌋ < 101 := Int.floor_lt.mpr (by push_cast; linarith)
    omega

/-- The charge stored by a position update on a present container. -/
theorem updateCharge_some (s : State) (rect : Rect) (clientX : ℚ) :
    updateChargeFromPosition s (some rect) clientX =
      { s with charge := mathRound (roundDouble (roundDouble
          (max 0 (min (roundDouble (clientX - rect.left)) rect.width) /
            (if rect.width = 0 then 1 else rect.width)) * 100)) } := rfl

/-- Step-by-step evaluation of the stored charge. -/
theorem percentage_eval (l w cx d x r t : ℚ) (n : ℤ) (hd : roundDouble (cx - l) = d)
    (hx : max 0 (min d w) = x) (hr : roundDouble (x / (if w = 0 then 1 else w)) = r)
    (ht : roundDouble (r * 100) = t) (hn : mathRound t = n) :
    mathRound (roundDouble (roundDouble
      (max 0 (min (roundDouble (cx - l)) w) / (if w = 0 then 1 else w)) * 100)) = n := by
  rw [hd, hx, hr, ht, hn]

theorem clamp_ratio_unit (d w : ℚ) :
    0 ≤ max 0 (min d w) / (if w = 0 then 1 else w) ∧
      max 0 (min d w) / (if w = 0 then 1 else w) ≤ 1 := by
  rcases lt_trichotomy w 0 with hw | hw | hw
  · have hx : max 0 (min d w) = 0 := max_eq_left (le_trans (min_le_right _ _) hw.le)
    rw [hx]; simp
  · subst hw
    have hx : max 0 (min d 0) = 0 := max_eq_left (min_le_right _ _)
    rw [hx]; simp
  · rw [if_neg (ne_of_gt hw)]
    have hx0 : 0 ≤ max 0 (min d w) := le_max_left _ _
    have hxw : max 0 (min d w) ≤ w := max_le hw.le (min_le_right _ _)
    exact ⟨div_nonneg hx0 hw.le, (div_le_one hw).mpr hxw⟩

theorem percentage_range {p : ℚ} (h0 : 0 ≤ p) (h1 : p ≤ 1) :
    0 ≤ roundDouble (roundDouble p * 100) ∧ roundDouble (roundDouble p * 100) ≤ 100 := by
  have a0 : 0 ≤ roundDouble p := roundDouble_nonneg h0
  have a1 : roundDouble p ≤ 1 := by
    have := roundDouble_mono h0 h1
    rwa [roundDouble_one] at this
  have b0 : 0 ≤ roundDouble p * 100 := by linarith
  have b1 : roundDouble p * 100 ≤ 100 := by linarith
  refine ⟨roundDouble_nonneg b0, ?_⟩
  have := roundDouble_mono b0 b1
  rwa [roundDouble_hundred] at this

theorem percentage_zero : mathRound (roundDouble (roundDouble 0 * 100)) = 0 := by
  rw [roundDouble_zero, zero_mul, roundDouble_zero, mathRound_zero]

theorem updateCharge_range (s : State) (container : Option Rect) (clientX : ℚ)
    (h : 0 ≤ s.charge ∧ s.charge ≤ 100) :
    0 ≤ (updateChargeFromPosition s container clientX).charge ∧
      (updateChargeFromPosition s container clientX).charge ≤ 100 := by
  cases container with
  | none => exact h
  | some rect =>
    rw [updateCharge_some]
    have hr := clamp_ratio_unit (roundDouble (clientX - rect.left)) rect.width
    have hp := percentage_range hr.1 hr.2
    exact mathRound_range _ hp.1 hp.2

theorem updateCharge_left_edge (s : State) (rect : Rect) (x : ℚ) (hx : x ≤ rect.left) :
    (updateChargeFromPosition s (some rect) x).charge = 0 := by
  rw [updateCharge_some]
  show mathRound _ = 0
  have hd : roundDouble (x - rect.left) ≤ 0 := roundDouble_nonpos (by linarith)
  have hc : max 0 (min (roundDouble (x - rect.left)) rect.width) = 0 :=
    max_eq_left (le_trans (min_le_left _ _) hd)
  rw [hc, zero_div]
  exact percentage_zero

theorem updateCharge_zero_width (s : State) (rect : Rect) (x : ℚ) (hw : rect.width = 0) :
    (updateChargeFromPosition s (some rect) x).charge = 0 := by
  rw [updateCharge_some]
  show mathRound _ = 0
  have hc : max 0 (min (roundDouble (x - rect.left)) rect.width) = 0 := by
    rw [hw]; exact max_eq_left (min_le_right _ _)
  rw [hc, zero_div]
  exact percentage_zero

theorem updateCharge_right_edge (s : State) (rect : Rect) (x : ℚ) (hw : 0 < rect.width)
    (hx : rect.left + rect.width ≤ x) :
    (updateChargeFromPosition s (some rect) x).charge = 100 := by
  rw [updateCharge_some]
  show mathRound _ = 100
  rw [if_neg (ne_of_gt hw)]
  have hdw : rect.width ≤ x - rect.left := by linarith
  have hdpos : 0 < x - rect.left := lt_of_lt_of_le hw hdw
  -- the rounded difference is at least `width * (1 - 2^-53)`
  have h1 : rect.width * (1 - 1 / 2 ^ 53) ≤ roundDouble (x - rect.left) :=
    le_trans (mul_le_mul_of_nonneg_right hdw (by norm_num)) (roundDouble_ge hdpos)
  have h2 : rect.width * (1 - 1 / 2 ^ 53) ≤ rect.width := by nlinarith
  have hmin : rect.width * (1 - 1 / 2 ^ 53) ≤ min (roundDouble (x - rect.left)) rect.width :=
    le_min h1 h2
  have hminpos : 0 ≤ min (roundDouble (x - rect.left)) rect.width :=
    le_trans (by nlinarith) hmin
  rw [max_eq_right hminpos]
  set a := min (roundDouble (x - rect.left)) rect.width with ha
  have ha1 : a / rect.width ≤ 1 := (div_le_one hw).mpr (min_le_right _ _)
  have ha0 : 255 / 256 ≤ a / rect.width := by
    rw [le_div_iff₀ hw]
    nlinarith
  have hr0 : 255 / 256 ≤ roundDouble (a / rect.width) := by
    have := roundDouble_mono (by norm_num : (0 : ℚ) ≤ 255 / 256) ha0
    rwa [roundDouble_255_256] at this
  have hr1 : roundDouble (a / rect.width) ≤ 1 := by
    have := roundDouble_mono (by linarith : (0 : ℚ) ≤ a / rect.width) ha1
    rwa [roundDouble_one] at this
  have ht0 : 199 / 2 ≤ roundDouble (roundDouble (a / rect.width) * 100) := by
    have := roundDouble_mono (by norm_num : (0 : ℚ) ≤ 199 / 2)
      (by linarith : (199 / 2 : ℚ) ≤ roundDouble (a / rect.width) * 100)
    rwa [roundDouble_199_2] at this
  have ht1 : roundDouble (roundDouble (a / rect.width) * 100) ≤ 100 := by
    have := roundDouble_mono (by linarith : (0 : ℚ) ≤ roundDouble (a / rect.width) * 100)
      (by linarith : roundDouble (a / rect.width) * 100 ≤ 100)
    rwa [roundDouble_hundred] at this
  rw [mathRound_eq_iff]
  constructor
  · push_cast; linarith
  · push_cast; linarith

/-- Two roundings of a ratio in `[0, 1]` move the percentage by less than `2^-45`. -/
theorem percentage_accuracy {p : ℚ} (h0 : 0 ≤ p) (h1 : p ≤ 1) :
    p * 100 - 1 / 2 ^ 45 ≤ roundDouble (roundDouble p * 100) ∧
      roundDouble (roundDouble p * 100) ≤ p * 100 + 1 / 2 ^ 45 := by
  rcases h0.lt_or_eq with hp | hp
  · have a_lo := roundDouble_ge hp
    have a_hi := roundDouble_le hp
    have a_pos : 0 < roundDouble p := lt_of_lt_of_le (by nlinarith) a_lo
    have b_lo := roundDouble_ge (by linarith : 0 < roundDouble p * 100)
    have b_hi := roundDouble_le (by linarith : 0 < roundDouble p * 100)
    have c_lo : p * (1 - 1 / 2 ^ 53) * 100 * (1 - 1 / 2 ^ 53) ≤
        roundDouble p * 100 * (1 - 1 / 2 ^ 53) :=
      mul_le_mul_of_nonneg_right (by linarith) (by norm_num)
    have c_hi : roundDouble p * 100 * (1 + 1 / 2 ^ 53) ≤
        p * (1 + 1 / 2 ^ 53) * 100 * (1 + 1 / 2 ^ 53) :=
      mul_le_mul_of_nonneg_right (by linarith) (by norm_num)
    constructor
    · have : p * 100 - 1 / 2 ^ 45 ≤ p * (1 - 1 / 2 ^ 53) * 100 * (1 - 1 / 2 ^ 53) := by
        linarith
      linarith
    · have : p * (1 + 1 / 2 ^ 53) * 100 * (1 + 1 / 2 ^ 53) ≤ p * 100 + 1 / 2 ^ 45 := by
        linarith
      linarith
  · rw [← hp, roundDouble_zero, zero_mul, roundDouble_zero]
    constructor <;> norm_num

/-- Rounding the pointer offset moves the clamped offset by at most `2^-53` of itself. -/
theorem clamp_accuracy (d w : ℚ) (hw : 0 < w) :
    max 0 (min d w) * (1 - 1 / 2 ^ 53) ≤ max 0 (min (roundDouble d) w) ∧
      max 0 (min (roundDouble d) w) ≤ max 0 (min d w) * (1 + 1 / 2 ^ 53) := by
  rcases le_or_lt d 0 with hd | hd
  · have hD : roundDouble d ≤ 0 := roundDouble_nonpos hd
    rw [max_eq_left (le_trans (min_le_left _ _) hd),
      max_eq_left (le_trans (min_le_left _ _) hD)]
    constructor <;> norm_num
  · have D_lo := roundDouble_ge hd
    have D_hi := roundDouble_le hd
    have D_pos : 0 < roundDouble d := lt_of_lt_of_le (by nlinarith) D_lo
    rw [max_eq_right (le_min hd.le hw.le), max_eq_right (le_min D_pos.le hw.le)]
    rcases le_total d w with h1 | h1 <;> rcases le_total (roundDouble d) w with h2 | h2
    · rw [min_eq_left h1, min_eq_left h2]; exact ⟨D_lo, D_hi⟩
    · rw [min_eq_left h1, min_eq_right h2]; constructor <;> nlinarith
    · rw [min_eq_right h1, min_eq_left h2]; constructor <;> nlinarith
    · rw [min_eq_right h1, min_eq_right h2]; constructor <;> nlinarith

/-- The double percentage stays within `2^-44` of the exact percentage. -/
theorem percentage_close (rect : Rect) (coordinate : ℚ) :
    exactPercentage rect coordinate - 1 / 2 ^ 44 ≤
        roundDouble (roundDouble
          (max 0 (min (roundDouble (coordinate - rect.left)) rect.width) /
            (if rect.width = 0 then 1 else rect.width)) * 100) ∧
      roundDouble (roundDouble
          (max 0 (min (roundDouble (coordinate - rect.left)) rect.width) /
            (if rect.width = 0 then 1 else rect.width)) * 100) ≤
        exactPercentage rect coordinate + 1 / 2 ^ 44 := by
  unfold exactPercentage
  rcases le_or_lt rect.width 0 with hw | hw
  · have e1 : max 0 (min (roundDouble (coordinate - rect.left)) rect.width) = 0 :=
      max_eq_left (le_trans (min_le_right _ _) hw)
    have e2 : max 0 (min (coordinate - rect.left) rect.width) = 0 :=
      max_eq_left (le_trans (min_le_right _ _) hw)
    rw [e1, e2, zero_div, roundDouble_zero, zero_mul, roundDouble_zero]
    constructor <;> norm_num
  · rw [if_neg (ne_of_gt hw)]
    have hc := clamp_accuracy (coordinate - rect.left) rect.width hw
    have hu := clamp_ratio_unit (roundDouble (coordinate - rect.left)) rect.width
    have hv := clamp_ratio_unit (coordinate - rect.left) rect.width
    rw [if_neg (ne_of_gt hw)] at hu hv
    have hp := percentage_accuracy hu.1 hu.2
    set xh := max 0 (min (roundDouble (coordinate - rect.left)) rect.width) with hxh
    set x := max 0 (min (coordinate - rect.left) rect.width) with hx
    have r_lo : x / rect.width * (1 - 1 / 2 ^ 53) ≤ xh / rect.width := by
      rw [div_mul_eq_mul_div]
      exact div_le_div_of_nonneg_right hc.1 hw.le
    have r_hi : xh / rect.width ≤ x / rect.width * (1 + 1 / 2 ^ 53) := by
      rw [div_mul_eq_mul_div]
      exact div_le_div_of_nonneg_right hc.2 hw.le
    constructor
    · linarith [hp.1, hv.1, hv.2]
    · linarith [hp.2, hv.1, hv.2]

/-- The stored charge is the exactly rounded percentage, up to a tolerance of `2^-44`
on the percentage. -/
theorem updateCharge_accuracy (s : State) (rect : Rect) (coordinate : ℚ) :
    mathRound (exactPercentage rect coordinate - 1 / 2 ^ 44) ≤
        (updateChargeFromPosition s (some rect) coordinate).charge ∧
      (updateChargeFromPosition s (some rect) coordinate).charge ≤
        mathRound (exactPercentage rect coordinate + 1 / 2 ^ 44) := by
  rw [updateCharge_some]
  have h := percentage_close rect coordinate
  exact ⟨mathRound_mono h.1, mathRound_mono h.2⟩

/-- A pointer at `29` on the track `[0, 200]`: the quotient `29 / 200` and the product
with `100` both round, and the percentage is the double `14.499999999999998`. -/
theorem percentage_29_200 :
    mathRound (roundDouble (roundDouble
      (max 0 (min (roundDouble (29 - 0)) 200) / (if (200 : ℚ) = 0 then 1 else 200)) * 100))
      = 14 :=
  percentage_eval 0 200 29 29 29 (5224175567749775 / 36028797018963968)
    (8162774324609023 / 562949953421312) 14
    (roundDouble_eval _ 4 8162774324609024 29 (by norm_num) (by norm_num) (by norm_num)
      (by norm_num) (by norm_num))
    (by norm_num)
    (by
      rw [if_neg (by norm_num)]
      exact roundDouble_eval _ (-3) 5224175567749775 _ (by norm_num) (by norm_num)
        (by norm_num) (by norm_num) (by norm_num))
    (roundDouble_eval _ 3 8162774324609023 _ (by norm_num) (by norm_num) (by norm_num)
      (by norm_num) (by norm_num))
    (by rw [mathRound_eq_iff]; norm_num)

/-- A pointer at `115` on the track `[0, 200]`: the percentage is the double
`57.49999999999999`. -/
theorem percentage_115_200 :
    mathRound (roundDouble (roundDouble
      (max 0 (min (roundDouble (115 - 0)) 200) / (if (200 : ℚ) = 0 then 1 else 200)) * 100))
      = 57 :=
  percentage_eval 0 200 115 115 115 (2589569785738035 / 4503599627370496)
    (8092405580431359 / 140737488355328) 57
    (roundDouble_eval _ 6 8092405580431360 115 (by norm_num) (by norm_num) (by norm_num)
      (by norm_num) (by norm_num))
    (by norm_num)
    (by
      rw [if_neg (by norm_num)]
      exact roundDouble_eval _ (-1) 5179139571476070 _ (by norm_num) (by norm_num)
        (by norm_num) (by norm_num) (by norm_num))
    (roundDouble_eval _ 5 8092405580431359 _ (by norm_num) (by norm_num) (by norm_num)
      (by norm_num) (by norm_num))
    (by rw [mathRound_eq_iff]; norm_num)

/-- A pointer at `1/2` on the track `[0, 1/2]`: every step is exact. -/
theorem percentage_half_half :
    mathRound (roundDouble (roundDouble
      (max 0 (min (roundDouble (1 / 2 - 0)) (1 / 2)) /
        (if (1 / 2 : ℚ) = 0 then 1 else 1 / 2)) * 100)) = 100 :=
  percentage_eval 0 (1 / 2) (1 / 2) (1 / 2) (1 / 2) 1 100 100
    (roundDouble_eval _ (-1) 4503599627370496 _ (by norm_num) (by norm_num) (by norm_num)
      (by norm_num) (by norm_num))
    (by norm_num)
    (by
      rw [if_neg (by norm_num)]
      exact roundDouble_eval _ 0 4503599627370496 _ (by norm_num) (by norm_num)
        (by norm_num) (by norm_num) (by norm_num))
    (roundDouble_eval _ 6 7036874417766400 _ (by norm_num) (by norm_num) (by norm_num)
      (by norm_num) (by norm_num))
    (by rw [mathRound_eq_iff]; norm_num)

theorem handleMouseMove_range (s : State) (container : Option Rect) (clientX : ℚ)
    (h : 0 ≤ s.charge ∧ s.charge ≤ 100) :
    0 ≤ (handleMouseMove s container clientX).charge ∧
      (handleMouseMove s container clientX).charge ≤ 100 := by
  unfold handleMouseMove
  split_ifs
  · exact h
  · exact updateCharge_range s container clientX h

theorem handleTouchStart_range (s : State) (container : Option Rect) (touches : List ℚ)
    (h : 0 ≤ s.charge ∧ s.charge ≤ 100) :
    0 ≤ (handleTouchStart s container touches).charge ∧
      (handleTouchStart s container touches).charge ≤ 100 := by
  unfold handleTouchStart
  cases touches.head? with
  | none => exact h
  | some clientX => exact updateCharge_range s container clientX h

theorem handleTouchMove_range (s : State) (container : Option Rect) (touches : List ℚ)
    (h : 0 ≤ s.charge ∧ s.charge ≤ 100) :
    0 ≤ (handleTouchMove s container touches).charge ∧
      (handleTouchMove s container touches).charge ≤ 100 := by
  unfold handleTouchMove
  split_ifs
  · exact h
  · cases touches.head? with
    | none => exact h
    | some clientX => exact updateCharge_range s container clientX h

theorem step_range (s : State) (ev : Option Rect × Event)
    (h : 0 ≤ s.charge ∧ s.charge ≤ 100) :
    0 ≤ (step s ev).charge ∧ (step s ev).charge ≤ 100 := by
  obtain ⟨container, e⟩ := ev
  cases e with
  | mouseDown clientX => exact updateCharge_range s container clientX h
  | mouseMove clientX => exact handleMouseMove_range s container clientX h
  | touchStart touches => exact handleTouchStart_range s container touches h
  | touchMove touches => exact handleTouchMove_range s container touches h
  | mouseUp => exact h
  | touchEnd => exact h

theorem run_range (s : State) (evs : List (Option Rect × Event))
    (h : 0 ≤ s.charge ∧ s.charge ≤ 100) :
    0 ≤ (run s evs).charge ∧ (run s evs).charge ≤ 100 := by
  induction evs generalizing s with
  | nil => exact h
  | cons ev rest ih => exact ih (step s ev) (step_range s ev h)

theorem step_move_not_dragging (s : State) (ev : Option Rect × Event)
    (hs : s.isDraggingRef = false) (hm : ev.2.isMove = true) : step s ev = s := by
  obtain ⟨container, e⟩ := ev
  cases e with
  | mouseMove clientX => simp [step, handleMouseMove, hs]
  | touchMove touches => simp [step, handleTouchMove, hs]
  | mouseDown clientX => simp [Event.isMove] at hm
  | touchStart touches => simp [Event.isMove] at hm
  | mouseUp => simp [Event.isMove] at hm
  | touchEnd => simp [Event.isMove] at hm

theorem run_moves_not_dragging (s : State) (moves : List (Option Rect × Event))
    (hs : s.isDraggingRef = false) (hm : ∀ ev ∈ moves, ev.2.isMove = true) :
    run s moves = s := by
  induction moves with
  | nil => rfl
  | cons ev rest ih =>
    have h1 : step s ev = s := step_move_not_dragging s ev hs (hm ev (List.mem_cons_self _ _))
    show run (step s ev) rest = s
    rw [h1]
    exact ih (fun e he => hm e (List.mem_cons_of_mem _ he))

/-- The specification's formula, read in double arithmetic, at coordinate `1/2` on the
track `[0, 1/2]`: the divisor is `max(1/2, 1) = 1`. -/
theorem mappedChargeSpecDouble_half_half :
    mappedChargeSpecDouble (Rect.mk 0 (1 / 2)) (1 / 2) = 50 := by
  unfold mappedChargeSpecDouble
  have hd : roundDouble ((1 / 2 : ℚ) - 0) = 1 / 2 :=
    roundDouble_eval _ (-1) 4503599627370496 _ (by norm_num) (by norm_num) (by norm_num)
      (by norm_num) (by norm_num)
  have hr : roundDouble ((1 / 2 : ℚ) / 1) = 1 / 2 :=
    roundDouble_eval _ (-1) 4503599627370496 _ (by norm_num) (by norm_num) (by norm_num)
      (by norm_num) (by norm_num)
  have ht : roundDouble ((1 / 2 : ℚ) * 100) = 50 :=
    roundDouble_eval _ 5 7036874417766400 _ (by norm_num) (by norm_num) (by norm_num)
      (by norm_num) (by norm_num)
  have hx : max (0 : ℚ) (min (1 / 2) (1 / 2)) = 1 / 2 := by norm_num
  have hm : max (1 / 2 : ℚ) 1 = 1 := by norm_num
  show mathRound (roundDouble (roundDouble
    (max 0 (min (roundDouble (1 / 2 - 0)) (1 / 2)) / max (1 / 2) 1) * 100)) = 50
  rw [hd, hx, hm, hr, ht, mathRound_eq_iff]
  norm_num

/-! ## Position mapping -/

/-- C1 (as stated, refuted): on the rectangle with left edge `0` and width `1/2`, a pointer
at coordinate `1/2` stores charge `100`, whereas the formula with divisor
`max(rectWidth, 1)` gives `50`, in exact arithmetic and in double arithmetic alike. -/
theorem updateCharge_fractional_width_differs :
    (0 : ℚ) ≤ (Rect.mk 0 (1 / 2)).width ∧
      (updateChargeFromPosition (initialState none) (some (Rect.mk 0 (1 / 2))) (1 / 2)).charge
        = 100 ∧
      mappedChargeSpec (Rect.mk 0 (1 / 2)) (1 / 2) = 50 ∧
      (updateChargeFromPosition (initialState none) (some (Rect.mk 0 (1 / 2))) (1 / 2)).charge
        ≠ mappedChargeSpec (Rect.mk 0 (1 / 2)) (1 / 2) ∧
      mappedChargeSpecDouble (Rect.mk 0 (1 / 2)) (1 / 2) = 50 ∧
      (updateChargeFromPosition (initialState none) (some (Rect.mk 0 (1 / 2))) (1 / 2)).charge
        ≠ mappedChargeSpecDouble (Rect.mk 0 (1 / 2)) (1 / 2) := by
  have h1 : (updateChargeFromPosition (initialState none) (some (Rect.mk 0 (1 / 2)))
      (1 / 2)).charge = 100 := by
    rw [updateCharge_some]
    exact percentage_half_half
  have h2 : mappedChargeSpec (Rect.mk 0 (1 / 2)) (1 / 2) = 50 := by
    unfold mappedChargeSpec
    show mathRound _ = 50
    rw [mathRound_eq_iff]
    norm_num
  have h3 := mappedChargeSpecDouble_half_half
  refine ⟨by norm_num, h1, h2, ?_, h3, ?_⟩
  · rw [h1, h2]; decide
  · rw [h1, h3]; decide

/-- C1 (amended): for every coordinate and every rectangle, a position update on a present
container stores `round(clampedX / w * 100)`, the `-`, `/` and `*` being JavaScript
number operations (each rounds its exact result to a double), with
`clampedX = clamp(coordinate - rectLeft, 0, rectWidth)` and the divisor `w` being
`rectWidth` itself unless `rectWidth` is exactly `0`, in which case it is `1`; the drag
flags are untouched; when `rectWidth = 0` or `rectWidth ≥ 1` the stored value equals the
formula with divisor `max(rectWidth, 1)` in the same arithmetic; and the stored value lies
between the exact-arithmetic roundings of the percentage moved down and up by `2^-44`. -/
theorem updateCharge_formula (s : State) (rect : Rect) (coordinate : ℚ) :
    (updateChargeFromPosition s (some rect) coordinate).charge =
        mathRound (roundDouble (roundDouble
          (max 0 (min (roundDouble (coordinate - rect.left)) rect.width) /
            (if rect.width = 0 then 1 else rect.width)) * 100)) ∧
      (updateChargeFromPosition s (some rect) coordinate).isDragging = s.isDragging ∧
      (updateChargeFromPosition s (some rect) coordinate).isDraggingRef = s.isDraggingRef ∧
      (rect.width = 0 ∨ 1 ≤ rect.width →
        (updateChargeFromPosition s (some rect) coordinate).charge =
          mappedChargeSpecDouble rect coordinate) ∧
      mathRound (exactPercentage rect coordinate - 1 / 2 ^ 44) ≤
        (updateChargeFromPosition s (some rect) coordinate).charge ∧
      (updateChargeFromPosition s (some rect) coordinate).charge ≤
        mathRound (exactPercentage rect coordinate + 1 / 2 ^ 44) := by
  refine ⟨rfl, rfl, rfl, ?_, (updateCharge_accuracy s rect coordinate).1,
    (updateCharge_accuracy s rect coordinate).2⟩
  intro hw
  rw [updateCharge_some]
  show mathRound _ = mathRound _
  rcases hw with hw | hw
  · rw [hw]; simp
  · have h0 : rect.width ≠ 0 := by intro h; rw [h] at hw; norm_num at hw
    rw [if_neg h0, max_eq_left hw]

/-- Witness for C1 (amended): a pointer at `29` on the rectangle `[0, 200]` stores `14`,
which is also the value of the `max(rectWidth, 1)` formula in double arithmetic; the same
formula in exact arithmetic gives `15`, the exact percentage being the tie `14.5`. -/
theorem updateCharge_formula_witness :
    ((Rect.mk 0 200).width = 0 ∨ 1 ≤ (Rect.mk 0 200).width) ∧
      (updateChargeFromPosition (initialState none) (some (Rect.mk 0 200)) 29).charge =
        mappedChargeSpecDouble (Rect.mk 0 200) 29 ∧
      (updateChargeFromPosition (initialState none) (some (Rect.mk 0 200)) 29).charge = 14 ∧
      mappedChargeSpec (Rect.mk 0 200) 29 = 15 ∧
      exactPercentage (Rect.mk 0 200) 29 = 29 / 2 :=
  ⟨Or.inr (by norm_num),
    (updateCharge_formula (initialState none) (Rect.mk 0 200) 29).2.2.2.1
      (Or.inr (by norm_num)),
    (updateCharge_formula (initialState none) (Rect.mk 0 200) 29).1.trans percentage_29_200,
    by unfold mappedChargeSpec; show mathRound _ = 15; rw [mathRound_eq_iff]; norm_num,
    by unfold exactPercentage; norm_num⟩

/-- C2 (as stated, refuted): on the zero-width rectangle at `0`, the coordinate `0`
satisfies `x ≥ rectLeft + rectWidth`, yet the stored charge is `0`, not `100`. -/
theorem updateCharge_zero_width_right_edge :
    (Rect.mk 0 0).left + (Rect.mk 0 0).width ≤ (0 : ℚ) ∧
      (updateChargeFromPosition (initialState none) (some (Rect.mk 0 0)) 0).charge = 0 ∧
      (updateChargeFromPosition (initialState none) (some (Rect.mk 0 0)) 0).charge ≠ 100 := by
  have h1 : (updateChargeFromPosition (initialState none) (some (Rect.mk 0 0)) 0).charge
      = 0 := updateCharge_zero_width _ _ _ rfl
  refine ⟨by norm_num, h1, ?_⟩
  rw [h1]
  decide

/-- C2 (amended): for every rectangle and coordinate `x`, if `x ≤ rectLeft` the stored
charge is `0`; if the width is positive and `x ≥ rectLeft + rectWidth` the stored charge
is `100`; if the width is `0` the stored charge is `0` for every `x`. -/
theorem updateCharge_edges (s : State) (rect : Rect) (x : ℚ) :
    (x ≤ rect.left → (updateChargeFromPosition s (some rect) x).charge = 0) ∧
      (0 < rect.width → rect.left + rect.width ≤ x →
        (updateChargeFromPosition s (some rect) x).charge = 100) ∧
      (rect.width = 0 → (updateChargeFromPosition s (some rect) x).charge = 0) :=
  ⟨updateCharge_left_edge s rect x, updateCharge_right_edge s rect x,
    updateCharge_zero_width s rect x⟩

/-- Witness for C2 (amended): the rectangle `[10, 210]` with a pointer left of it and a
pointer right of it. -/
theorem updateCharge_edges_witness :
    ((5 : ℚ) ≤ (Rect.mk 10 200).left ∧
        (updateChargeFromPosition (initialState none) (some (Rect.mk 10 200)) 5).charge = 0) ∧
      ((0 : ℚ) < (Rect.mk 10 200).width ∧
        (Rect.mk 10 200).left + (Rect.mk 10 200).width ≤ (300 : ℚ) ∧
        (updateChargeFromPosition (initialState none) (some (Rect.mk 10 200)) 300).charge
          = 100) :=
  ⟨⟨by norm_num,
      (updateCharge_edges (initialState none) (Rect.mk 10 200) 5).1 (by norm_num)⟩,
    ⟨by norm_num, by norm_num,
      (updateCharge_edges (initialState none) (Rect.mk 10 200) 300).2.1
        (by norm_num) (by norm_num)⟩⟩

/-! ## Charge invariant and drag state machine -/

/-- C3: starting from any state whose (integer) charge lies in `[0, 100]`, after any
sequence of press, move and release events, each delivered with an arbitrary coordinate
and an arbitrary container (empty reference, or any rectangle, zero width included), the
charge is still an integer in `[0, 100]`. -/
theorem charge_invariant (s : State) (evs : List (Option Rect × Event))
    (h0 : 0 ≤ s.charge) (h100 : s.charge ≤ 100) :
    0 ≤ (run s evs).charge ∧ (run s evs).charge ≤ 100 :=
  run_range s evs ⟨h0, h100⟩

/-- Witness for C3: the default component, pressed on a 200 wide track, moved over an
empty reference and over a zero-width track, then released. -/
theorem charge_invariant_witness :
    0 ≤ (initialState none).charge ∧ (initialState none).charge ≤ 100 ∧
      0 ≤ (run (initialState none)
        [(some (Rect.mk 0 200), Event.mouseDown 50), (none, Event.mouseMove 3),
          (some (Rect.mk 0 0), Event.touchMove [5]), (none, Event.mouseUp)]).charge ∧
      (run (initialState none)
        [(some (Rect.mk 0 200), Event.mouseDown 50), (none, Event.mouseMove 3),
          (some (Rect.mk 0 0), Event.touchMove [5]), (none, Event.mouseUp)]).charge ≤ 100 :=
  ⟨by decide, by decide,
    charge_invariant (initialState none)
      [(some (Rect.mk 0 200), Event.mouseDown 50), (none, Event.mouseMove 3),
        (some (Rect.mk 0 0), Event.touchMove [5]), (none, Event.mouseUp)]
      (by decide) (by decide)⟩

/-- C6: from any state, a mouse-down at `x`, or a touch-start whose first touch is at `x`,
on the control (bounding rectangle `rect`) sets both drag flags to true and sets the charge
to the mapped value of `x`, which is the value a position update at `x` stores (the
formula of the source in double arithmetic); a mouse-up or touch-end sets both drag flags
to false and leaves the charge unchanged; and after a release every sequence of move
events (mouse or touch, any coordinates, any container) leaves the whole state
unchanged. -/
theorem drag_state_machine (s : State) (rect : Rect) (x : ℚ) (others : List ℚ)
    (container : Option Rect) (moves : List (Option Rect × Event))
    (hm : ∀ ev ∈ moves, ev.2.isMove = true) :
    (step s (some rect, Event.mouseDown x) =
        { charge := (updateChargeFromPosition s (some rect) x).charge,
          isDragging := true, isDraggingRef := true }) ∧
      (step s (some rect, Event.touchStart (x :: others)) =
        { charge := (updateChargeFromPosition s (some rect) x).charge,
          isDragging := true, isDraggingRef := true }) ∧
      (updateChargeFromPosition s (some rect) x).charge =
        mathRound (roundDouble (roundDouble
          (max 0 (min (roundDouble (x - rect.left)) rect.width) /
            (if rect.width = 0 then 1 else rect.width)) * 100)) ∧
      (step s (container, Event.mouseUp) =
        { charge := s.charge, isDragging := false, isDraggingRef := false }) ∧
      (step s (container, Event.touchEnd) =
        { charge := s.charge, isDragging := false, isDraggingRef := false }) ∧
      run (step s (container, Event.mouseUp)) moves = step s (container, Event.mouseUp) ∧
      run (step s (container, Event.touchEnd)) moves = step s (container, Event.touchEnd) :=
  ⟨rfl, rfl, rfl, rfl, rfl,
    run_moves_not_dragging (step s (container, Event.mouseUp)) moves rfl hm,
    run_moves_not_dragging (step s (container, Event.touchEnd)) moves rfl hm⟩

/-- Witness for C6: an idle component at charge 40 is pressed at `115` on a 200 wide
track, which stores `57` (the double percentage is `57.49999999999999`); after the release
a mouse move and a touch move change nothing. -/
theorem drag_state_machine_witness :
    (∀ ev ∈ [(some (Rect.mk 0 200), Event.mouseMove 150),
        (some (Rect.mk 0 200), Event.touchMove [20])], ev.2.isMove = true) ∧
      step (State.mk 40 false false) (some (Rect.mk 0 200), Event.mouseDown 115) =
        State.mk 57 true true ∧
      step (State.mk 40 false false) (some (Rect.mk 0 200), Event.touchStart [115, 30]) =
        State.mk 57 true true ∧
      step (State.mk 57 true true) (none, Event.mouseUp) = State.mk 57 false false ∧
      run (step (State.mk 57 true true) (none, Event.mouseUp))
        [(some (Rect.mk 0 200), Event.mouseMove 150),
          (some (Rect.mk 0 200), Event.touchMove [20])] =
        State.mk 57 false false := by
  have hm : ∀ ev ∈ [(some (Rect.mk 0 200), Event.mouseMove 150),
      (some (Rect.mk 0 200), Event.touchMove [20])], ev.2.isMove = true := by
    simp [Event.isMove]
  have hc : (updateChargeFromPosition (State.mk 40 false false) (some (Rect.mk 0 200))
      115).charge = 57 := by
    rw [updateCharge_some]
    exact percentage_115_200
  have h1 := drag_state_machine (State.mk 40 false false) (Rect.mk 0 200) 115 [30] none
    [(some (Rect.mk 0 200), Event.mouseMove 150),
      (some (Rect.mk 0 200), Event.touchMove [20])] hm
  have h2 := drag_state_machine (State.mk 57 true true) (Rect.mk 0 200) 115 [30] none
    [(some (Rect.mk 0 200), Event.mouseMove 150),
      (some (Rect.mk 0 200), Event.touchMove [20])] hm
  refine ⟨hm, ?_, ?_, h2.2.2.2.1, ?_⟩
  · rw [h1.1, hc]
  · rw [h1.2.1, hc]
  · rw [h2.2.2.2.2.2.1, h2.2.2.2.1]

/-- C7: with an empty container reference, `updateChargeFromPosition` returns the state it
was given, for every coordinate: charge and both drag flags are unchanged (the embedded
function is total, so no error is raised). -/
theorem updateCharge_empty_container (s : State) (clientX : ℚ) :
    updateChargeFromPosition s none clientX = s ∧
      (updateChargeFromPosition s none clientX).charge = s.charge ∧
      (updateChargeFromPosition s none clientX).isDragging = s.isDragging ∧
      (updateChargeFromPosition s none clientX).isDraggingRef = s.isDraggingRef :=
  ⟨rfl, rfl, rfl, rfl⟩

/-- C8 (as stated, refuted): a component created with `initialCharge = 150` starts with
charge `150`, which is above `100`; one created with `-5` starts below `0`. -/
theorem initial_charge_not_clamped :
    (initialState (some 150)).charge = 150 ∧ ¬ (initialState (some 150)).charge ≤ 100 ∧
      (initialState (some (-5))).charge = -5 ∧ ¬ 0 ≤ (initialState (some (-5))).charge := by
  decide

/-- C8 (amended): the initial charge is the caller-supplied `initialCharge` unchanged, so
it lies in `[0, 100]` exactly when the supplied value does; it is `72` when no value is
supplied; and both drag flags start false. -/
theorem initial_charge_is_supplied (v : ℤ) :
    (initialState (some v)).charge = v ∧
      ((0 ≤ (initialState (some v)).charge ∧ (initialState (some v)).charge ≤ 100) ↔
        (0 ≤ v ∧ v ≤ 100)) ∧
      (initialState none).charge = 72 ∧
      (initialState (some v)).isDragging = false ∧
      (initialState (some v)).isDraggingRef = false :=
  ⟨rfl, Iff.rfl, rfl, rfl, rfl⟩

/-! ## Derived display strings -/

/-- C4: for every integer charge (in particular every charge in `[0, 100]`), `timeLeft`
equals the specification's piecewise definition over `remaining = 100 - charge`; and
charge `100` gives "fully charged", charge `97` gives "3 min left". -/
theorem timeLeft_refines_spec (c : ℤ) :
    timeLeft c = timeRemainingSpec c ∧
      timeLeft 100 = "fully charged" ∧ timeLeft 97 = "3 min left" := by
  refine ⟨?_, by decide, by decide⟩
  rw [timeLeft_eq_render, timeLeftText_eq]
  unfold timeRemainingSpec
  simp only [floor_mul_1_2, floor_mul_1_5, floor_div_60, floor_div_20, floor_mul_3]
  unfold formatTimeText specFormat
  split_ifs <;> rfl

/-- C5: for every charge, `chargingMessage` is "fully charged" when `charge ≥ 99`,
otherwise "almost charged" when `charge ≥ 80`, otherwise "charging..." when
`charge ≥ 30`, otherwise "low battery"; `72`, `85`, `100` and `10` give "charging...",
"almost charged", "fully charged" and "low battery". -/
theorem chargingMessage_refines_spec (c : ℤ) :
    chargingMessage c = statusMessageSpec c ∧
      chargingMessage 72 = "charging..." ∧ chargingMessage 85 = "almost charged" ∧
      chargingMessage 100 = "fully charged" ∧ chargingMessage 10 = "low battery" :=
  ⟨rfl, by decide, by decide, by decide, by decide⟩

/-- C9: for all integer charges `c1 ≤ c2` in `[0, 100]`, the time strings are the
renderings of `timeLeftText`, the total minutes shown for `c2` are at most the total
minutes shown for `c1`, and the minute component shown is below `60`. -/
theorem timeLeft_monotone (c1 c2 : ℤ) (h0 : 0 ≤ c1) (h12 : c1 ≤ c2) (h100 : c2 ≤ 100) :
    timeLeft c1 = (timeLeftText c1).render ∧ timeLeft c2 = (timeLeftText c2).render ∧
      (timeLeftText c2).totalMinutes ≤ (timeLeftText c1).totalMinutes ∧
      (timeLeftText c1).minuteComponent < 60 ∧ (timeLeftText c2).minuteComponent < 60 := by
  refine ⟨timeLeft_eq_render c1, timeLeft_eq_render c2, ?_,
    minuteComponent_timeLeftText c1, minuteComponent_timeLeftText c2⟩
  rw [totalMinutes_timeLeftText, totalMinutes_timeLeftText]
  split_ifs <;> omega

/-- Witness for C9: charges `40` and `60`. -/
theorem timeLeft_monotone_witness :
    (0 : ℤ) ≤ 40 ∧ (40 : ℤ) ≤ 60 ∧ (60 : ℤ) ≤ 100 ∧
      (timeLeftText 60).totalMinutes ≤ (timeLeftText 40).totalMinutes :=
  ⟨by decide, by decide, by decide,
    (timeLeft_monotone 40 60 (by decide) (by decide) (by decide)).2.2.1⟩

/-- C10: for every charge, `timeLeft` is "fully charged" if and only if `chargingMessage`
is "fully charged", and each holds exactly when `charge ≥ 99`. -/
theorem fully_charged_agree (c : ℤ) :
    (timeLeft c = "fully charged" ↔ chargingMessage c = "fully charged") ∧
      (timeLeft c = "fully charged" ↔ 99 ≤ c) ∧
      (chargingMessage c = "fully charged" ↔ 99 ≤ c) := by
  have ht : timeLeft c = "fully charged" ↔ 99 ≤ c := by
    unfold timeLeft
    simp only
    split_ifs <;> rw [formatTime_eq_fully] <;> omega
  have hm : chargingMessage c = "fully charged" ↔ 99 ≤ c := by
    unfold chargingMessage
    split_ifs with h1 h2 h3
    · exact ⟨fun _ => h1, fun _ => rfl⟩
    · exact ⟨fun h => absurd h (by decide), fun h => absurd h h1⟩
    · exact ⟨fun h => absurd h (by decide), fun h => absurd h h1⟩
    · exact ⟨fun h => absurd h (by decide), fun h => absurd h h1⟩
  exact ⟨ht.trans hm.symm, ht, hm⟩

end BatterySlider
